import Mathlib

/-!
Shallow embedding of the geometric predicate core of the Geometry
repository (file testing_system.cpp).  Coordinates and coefficients are
modelled as `Int`; every definition mirrors one function of the source.
The int32-wrapping variants near the end model the narrow C++ `int`
intermediates where the width matters.
-/

namespace Geometry

/-- Position with integer coordinates, from class `Point`. -/
structure Point where
  x : Int
  y : Int
deriving DecidableEq

/-- Free vector, from class `Vector`. -/
structure Vector where
  x : Int
  y : Int
deriving DecidableEq

/-- Point difference, from `Point::operator-`. -/
def psub (p q : Point) : Point := ⟨p.x - q.x, p.y - q.y⟩

/-- Point sum, from `Point::operator+`. -/
def padd (p q : Point) : Point := ⟨p.x + q.x, p.y + q.y⟩

/-- Dot product, from `Vector::operator*`. -/
def dot (v w : Vector) : Int := v.x * w.x + v.y * w.y

/-- Cross product, from `Vector::operator^`. -/
def cross (v w : Vector) : Int := v.x * w.y - v.y * w.x

/-- Conversion of a point to a vector, from `Vector(const Point&)`. -/
def vecOfPoint (p : Point) : Vector := ⟨p.x, p.y⟩

/-- Vector between two points, from `Vector(const Point&, const Point&)`. -/
def vecOfPoints (p q : Point) : Vector := ⟨q.x - p.x, q.y - p.y⟩

/-- Vector negation, from `Vector::operator-`. -/
def vneg (v : Vector) : Vector := ⟨-v.x, -v.y⟩

/-- Segment with stored endpoints `begin_` and `end_`, from class `Segment`. -/
structure Segment where
  begin_ : Point
  end_ : Point
deriving DecidableEq

/-- Ray with a begin point and an (unnormalised) direction, from class `Ray`. -/
structure Ray where
  begin_ : Point
  direction : Vector
deriving DecidableEq

/-- Implicit line `a*x + b*y + c = 0`, from class `Line`. -/
structure Line where
  a : Int
  b : Int
  c : Int
deriving DecidableEq

/-- Circle with integer radius, from class `Circle`. -/
structure Circle where
  center : Point
  radius : Int
deriving DecidableEq

/-- Polygon as its ordered vertex list, from class `Polygon`
(`size_` is the length of `points_`). -/
structure Polygon where
  points : List Point
deriving DecidableEq

/-- Line through two points, from `Line::Line(const Point&, const Point&)`. -/
def lineOfPoints (p q : Point) : Line :=
  ⟨q.y - p.y, p.x - q.x, q.x * p.y - p.x * q.y⟩

/-- Line under a ray, from `Line::Line(const Ray&)`. -/
def lineOfRay (r : Ray) : Line :=
  let a := r.direction.y
  let b := -r.direction.x
  ⟨a, b, -a * r.begin_.x - b * r.begin_.y⟩

/-- Evaluation of the line equation at a point, from
`Line::PutPointIntoEquation`. -/
def Line.putPointIntoEquation (l : Line) (p : Point) : Int :=
  l.a * p.x + l.b * p.y + l.c

/-- Membership on a line, from `Line::ContainsPoint`. -/
def Line.containsPoint (l : Line) (p : Point) : Bool :=
  l.a * p.x + l.b * p.y + l.c == 0

/-- Line-versus-segment crossing test, from `Line::CrossesSegment`. -/
def Line.crossesSegment (l : Line) (s : Segment) : Bool :=
  decide (l.putPointIntoEquation s.begin_ * l.putPointIntoEquation s.end_ ≤ 0)

/-- Parallelism test, from `Line::IsParalel`. -/
def Line.isParalel (l m : Line) : Bool :=
  l.a * m.b == l.b * m.a

/-- Same-line test, from `Line::IsSame`. -/
def Line.isSame (l m : Line) : Bool :=
  l.isParalel m && (l.c * m.b == l.b * m.c)

/-- Squared-distance comparison against a radius, from
`Line::IsDistanceEqualRadius`. -/
def Line.isDistanceEqualRadius (l m : Line) (radius : Int) : Bool :=
  if radius == 0 then false
  else decide ((l.c - m.c) * (l.c - m.c) ≤ radius * radius * (l.a * l.a + l.b * l.b))

/-- Segment membership, from `Segment::ContainsPoint`. -/
def Segment.containsPoint (s : Segment) (p : Point) : Bool :=
  let v1 := vecOfPoint (psub p s.begin_)
  let v2 := vecOfPoint (psub p s.end_)
  cross v1 v2 == 0 && decide (dot v1 v2 ≤ 0)

/-- Segment-versus-segment crossing, from `Segment::CrossesSegment`.
The inner guard tests `t.begin_` twice, exactly as the source does
(`!ContainsPoint(segment.GetBegin()) && !ContainsPoint(segment.GetBegin())`). -/
def Segment.crossesSegment (s t : Segment) : Bool :=
  let abLine := lineOfPoints s.begin_ s.end_
  let cdLine := lineOfPoints t.begin_ t.end_
  if abLine.crossesSegment t && cdLine.crossesSegment s then
    if !s.containsPoint t.begin_ && !s.containsPoint t.begin_ then
      decide (dot (vecOfPoints s.begin_ t.begin_) (vecOfPoints s.end_ t.end_) ≤ 0)
    else true
  else false

/-- Ray membership, from `Ray::ContainsPoint`. -/
def Ray.containsPoint (r : Ray) (p : Point) : Bool :=
  let line := lineOfRay r
  line.containsPoint p && decide (0 ≤ dot (vecOfPoint (psub p r.begin_)) r.direction)

/-- Two-by-two determinant, from the free function `CalculateDeterminant`. -/
def calculateDeterminant (p q : Point) : Int :=
  cross (vecOfPoint p) (vecOfPoint q)

/-- Ray-versus-segment crossing, from `Ray::CrossesSegment`.  The C++
division on `long long` truncates toward zero, hence `Int.tdiv`. -/
def Ray.crossesSegment (r : Ray) (s : Segment) : Bool :=
  let line1 := lineOfRay r
  let line2 := lineOfPoints s.begin_ s.end_
  if line1.crossesSegment s then
    if line1.isSame line2 then
      r.containsPoint s.begin_ || r.containsPoint s.end_
    else
      let xNumerator := calculateDeterminant ⟨line1.c, line1.b⟩ ⟨line2.c, line2.b⟩
      let yNumerator := calculateDeterminant ⟨line1.a, line1.c⟩ ⟨line2.a, line2.c⟩
      let denominator := -calculateDeterminant ⟨line1.a, line1.b⟩ ⟨line2.a, line2.b⟩
      let xIntersect := if denominator != 0 then Int.tdiv xNumerator denominator else 0
      let yIntersect := if denominator != 0 then Int.tdiv yNumerator denominator else 0
      decide (0 ≤ dot ⟨xIntersect - r.begin_.x, yIntersect - r.begin_.y⟩ r.direction)
  else false

/-- The Cramer denominator of `Ray::CrossesSegment` for a given ray and
segment. -/
def rayDenominator (r : Ray) (s : Segment) : Int :=
  -calculateDeterminant ⟨(lineOfRay r).a, (lineOfRay r).b⟩
    ⟨(lineOfPoints s.begin_ s.end_).a, (lineOfPoints s.begin_ s.end_).b⟩

/-- Closed-disk membership, from `Circle::ContainsPoint`. -/
def Circle.containsPoint (c : Circle) (p : Point) : Bool :=
  let len := psub p c.center
  decide (len.x * len.x + len.y * len.y ≤ c.radius * c.radius)

/-- Exact boundary membership, from `Circle::ContainsPointInPerimetr`. -/
def Circle.containsPointInPerimetr (c : Circle) (p : Point) : Bool :=
  let len := psub p c.center
  len.x * len.x + len.y * len.y == c.radius * c.radius

/-- The both-endpoints-outside branch of `Circle::CrossesSegment`. -/
def circleOutsideCase (c : Circle) (s : Segment) : Bool :=
  let circleLine := lineOfPoints c.center (padd c.center (psub s.end_ s.begin_))
  let segLine := lineOfPoints s.begin_ s.end_
  if circleLine.isSame segLine then
    decide (dot (vecOfPoint (psub s.begin_ c.center)) (vecOfPoint (psub s.end_ c.center)) < 0)
  else if circleLine.isDistanceEqualRadius segLine c.radius then true
  else false

/-- Circle-versus-segment crossing, from `Circle::CrossesSegment`. -/
def Circle.crossesSegment (c : Circle) (s : Segment) : Bool :=
  if c.containsPointInPerimetr s.begin_ || c.containsPointInPerimetr s.end_ then true
  else if (c.containsPoint s.begin_ && !c.containsPoint s.end_) ||
      (c.containsPoint s.end_ && !c.containsPoint s.begin_) then true
  else if !c.containsPoint s.begin_ && !c.containsPoint s.end_ then
    circleOutsideCase c s
  else false

/-- Cyclic edge list of a polygon: vertex `i` to vertex `i+1`, and the
last vertex back to the first, as built on demand inside the loops of
`Polygon::ContainsPointWithDirection` and `Polygon::CrossesSegment`. -/
def edgesAux (first : Point) : List Point → List Segment
  | [] => []
  | [p] => [⟨p, first⟩]
  | p :: q :: rest => ⟨p, q⟩ :: edgesAux first (q :: rest)

/-- Edge list of a polygon. -/
def Polygon.edges : Polygon → List Segment
  | ⟨[]⟩ => []
  | ⟨p :: rest⟩ => edgesAux p (p :: rest)

/-- Loop body of `Polygon::ContainsPointWithDirection`: early `true` on a
boundary edge, otherwise count ray crossings and take the parity at the
end. -/
def containsPointLoop (ray : Ray) : List Segment → Nat → Bool
  | [], n => n % 2 == 1
  | seg :: rest, n =>
    if seg.containsPoint ray.begin_ then true
    else containsPointLoop ray rest (n + (if ray.crossesSegment seg then 1 else 0))

/-- Ray-casting containment in one direction, from
`Polygon::ContainsPointWithDirection`. -/
def Polygon.containsPointWithDirection (poly : Polygon) (p : Point) (dir : Vector) : Bool :=
  containsPointLoop ⟨p, dir⟩ poly.edges 0

/-- Polygon containment with the two cast directions of
`Polygon::ContainsPoint`. -/
def Polygon.containsPoint (poly : Polygon) (p : Point) : Bool :=
  poly.containsPointWithDirection p ⟨1, 0⟩ || poly.containsPointWithDirection p ⟨13, 2⟩

/-- Polygon-versus-segment crossing, from `Polygon::CrossesSegment`. -/
def Polygon.crossesSegment (poly : Polygon) (s : Segment) : Bool :=
  poly.edges.any fun e => e.crossesSegment s

/-- Tagged union of the shape kinds behind the `IShape` interface. -/
inductive Shape
  | point : Point → Shape
  | segment : Segment → Shape
  | ray : Ray → Shape
  | line : Line → Shape
  | circle : Circle → Shape
  | polygon : Polygon → Shape
deriving DecidableEq

/-- Translation of a point, from `Point::Move`. -/
def Point.move (p : Point) (v : Vector) : Point := ⟨p.x + v.x, p.y + v.y⟩

/-- Translation of a segment, from `Segment::Move`. -/
def Segment.move (s : Segment) (v : Vector) : Segment := ⟨s.begin_.move v, s.end_.move v⟩

/-- Translation of a ray (direction unchanged), from `Ray::Move`. -/
def Ray.move (r : Ray) (v : Vector) : Ray := ⟨⟨v.x + r.begin_.x, v.y + r.begin_.y⟩, r.direction⟩

/-- Translation of a line via its `c` coefficient, from `Line::Move`. -/
def Line.move (l : Line) (v : Vector) : Line := ⟨l.a, l.b, l.c - (l.a * v.x + l.b * v.y)⟩

/-- Translation of a circle, from `Circle::Move`. -/
def Circle.move (c : Circle) (v : Vector) : Circle :=
  ⟨⟨v.x + c.center.x, v.y + c.center.y⟩, c.radius⟩

/-- Translation of a polygon, from `Polygon::Move`. -/
def Polygon.move (poly : Polygon) (v : Vector) : Polygon :=
  ⟨poly.points.map fun p => ⟨v.x + p.x, v.y + p.y⟩⟩

/-- Uniform translation across the shape kinds, from the `Move` overrides. -/
def Shape.move : Shape → Vector → Shape
  | .point p, v => .point (p.move v)
  | .segment s, v => .segment (s.move v)
  | .ray r, v => .ray (r.move v)
  | .line l, v => .line (l.move v)
  | .circle c, v => .circle (c.move v)
  | .polygon poly, v => .polygon (poly.move v)

/-- Wrap an integer into the two's-complement range of a 32-bit `int`. -/
def wrap32 (z : Int) : Int := (z + 2 ^ 31) % 2 ^ 32 - 2 ^ 31

/-- A 32-bit `int` product, as the C++ expressions compute it. -/
def mul32 (a b : Int) : Int := wrap32 (a * b)

/-- A 32-bit `int` sum, as the C++ expressions compute it. -/
def add32 (a b : Int) : Int := wrap32 (a + b)

/-- Evaluation of the line equation with 32-bit intermediates: in
`Line::PutPointIntoEquation` the operands `a_`, `b_`, `c_` and the
coordinates are all `int`, so every product and sum is narrow; only the
final value is converted to `long long`. -/
def Line.putPointIntoEquationInt32 (l : Line) (p : Point) : Int :=
  add32 (add32 (mul32 l.a p.x) (mul32 l.b p.y)) l.c

/-- The line-membership predicate as the 32-bit arithmetic of
`Line::ContainsPoint` computes it. -/
def Line.containsPointInt32 (l : Line) (p : Point) : Bool :=
  l.putPointIntoEquationInt32 p == 0

/-- Well-formedness of a line: the coefficient pair `(a, b)` is nonzero. -/
def Line.wellFormed (l : Line) : Prop := l.a ≠ 0 ∨ l.b ≠ 0

/-- Proportionality of two coefficient triples by a nonzero (rational)
scalar: `m = (p / q) * l` cleared of denominators. -/
def Proportional (l m : Line) : Prop :=
  ∃ p q : Int, p ≠ 0 ∧ q ≠ 0 ∧ q * m.a = p * l.a ∧ q * m.b = p * l.b ∧ q * m.c = p * l.c

/-- Strict betweenness of `r` on the open segment from `p` to `q`: `r` is
a convex combination with positive integer weights. -/
def StrictlyBetween (p q r : Point) : Prop :=
  ∃ s t : Int, 0 < s ∧ 0 < t ∧
    (s + t) * r.x = t * p.x + s * q.x ∧ (s + t) * r.y = t * p.y + s * q.y

/-- Claim C1: the claim requires that when an endpoint of the other
segment lies exactly on `this`, `Segment::CrossesSegment` returns true
unconditionally.  The source tests `segment.GetBegin()` twice and never
`GetEnd()`, so for `s1 = ((0,0),(4,0))` and `s2 = ((-1,1),(1,0))` both
supporting-line tests pass and the end of `s2` lies on `s1`, yet the
dot-product branch runs and reports no crossing. -/
theorem crossesSegment_touching_endpoint_slip :
    Segment.crossesSegment ⟨⟨0, 0⟩, ⟨4, 0⟩⟩ ⟨⟨-1, 1⟩, ⟨1, 0⟩⟩ = false ∧
    (lineOfPoints ⟨0, 0⟩ ⟨4, 0⟩).crossesSegment ⟨⟨-1, 1⟩, ⟨1, 0⟩⟩ = true ∧
    (lineOfPoints ⟨-1, 1⟩ ⟨1, 0⟩).crossesSegment ⟨⟨0, 0⟩, ⟨4, 0⟩⟩ = true ∧
    Segment.containsPoint ⟨⟨0, 0⟩, ⟨4, 0⟩⟩ ⟨1, 0⟩ = true ∧
    Segment.containsPoint ⟨⟨0, 0⟩, ⟨4, 0⟩⟩ ⟨-1, 1⟩ = false := by
  decide

/-- Claim C4: the products of the line-equation evaluation are computed
in 32-bit `int` before the widening conversion, so with coefficient and
coordinate `65536` (well inside 32 bits) the product `2^32` wraps to `0`
and `Line::ContainsPoint` answers true, while the exact value is
`4294967296 ≠ 0`. -/
theorem putPointIntoEquation_int32_overflow :
    Line.putPointIntoEquationInt32 ⟨65536, 0, 0⟩ ⟨65536, 0⟩ = 0 ∧
    Line.putPointIntoEquation ⟨65536, 0, 0⟩ ⟨65536, 0⟩ = 4294967296 ∧
    Line.containsPointInt32 ⟨65536, 0, 0⟩ ⟨65536, 0⟩ = true ∧
    Line.containsPoint ⟨65536, 0, 0⟩ ⟨65536, 0⟩ = false := by
  decide

/-- Claim C9: a ray whose stored direction is the zero vector yields the
line `(0, 0, 0)`, so `Ray::ContainsPoint` accepts every point and
`Ray::CrossesSegment` accepts every segment. -/
theorem zero_direction_ray_total :
    ∀ (b p : Point) (s : Segment),
      Ray.containsPoint ⟨b, ⟨0, 0⟩⟩ p = true ∧
      Ray.crossesSegment ⟨b, ⟨0, 0⟩⟩ s = true := by
  have hcp : ∀ (b q : Point), Ray.containsPoint ⟨b, ⟨0, 0⟩⟩ q = true := by
    intro b q
    simp [Ray.containsPoint, lineOfRay, Line.containsPoint, dot, vecOfPoint, psub]
  intro b p s
  refine ⟨hcp b p, ?_⟩
  simp [Ray.crossesSegment, lineOfRay, Line.crossesSegment, Line.putPointIntoEquation,
    Line.isSame, Line.isParalel, hcp]

/-- Claim C10: a polygon with zero vertices has an empty edge list, so
both of its containment loops leave the crossing counter at zero (even
parity) and `Polygon::ContainsPoint` and `Polygon::CrossesSegment`
return false on every input. -/
theorem empty_polygon_predicates :
    ∀ (p : Point) (s : Segment),
      Polygon.containsPoint ⟨[]⟩ p = false ∧
      Polygon.crossesSegment ⟨[]⟩ s = false ∧
      ∀ dir : Vector, Polygon.containsPointWithDirection ⟨[]⟩ p dir = false := by
  intro p s
  exact ⟨rfl, rfl, fun dir => rfl⟩

/-- Claim C8: translating any shape by `v` and then by `-v` restores its
stored coordinates (for a line, its coefficient triple) exactly. -/
theorem move_roundtrip : ∀ (s : Shape) (v : Vector), (s.move v).move (vneg v) = s := by
  intro s v
  cases s with
  | point p =>
    obtain ⟨x, y⟩ := p
    simp [Shape.move, Point.move, vneg, Point.mk.injEq]
  | segment s =>
    obtain ⟨⟨x1, y1⟩, ⟨x2, y2⟩⟩ := s
    simp [Shape.move, Segment.move, Point.move, vneg, Point.mk.injEq]
  | ray r =>
    obtain ⟨⟨x, y⟩, d⟩ := r
    simp [Shape.move, Ray.move, vneg, Point.mk.injEq]
  | line l =>
    obtain ⟨a, b, c⟩ := l
    simp [Shape.move, Line.move, vneg, Line.mk.injEq]
    ring
  | circle c =>
    obtain ⟨⟨x, y⟩, rad⟩ := c
    simp [Shape.move, Circle.move, vneg, Point.mk.injEq]
  | polygon poly =>
    obtain ⟨pts⟩ := poly
    simp only [Shape.move, Polygon.move, vneg, List.map_map, Shape.polygon.injEq,
      Polygon.mk.injEq]
    induction pts with
    | nil => rfl
    | cons h t ih =>
      simp only [List.map_cons, Function.comp_apply, List.cons.injEq]
      exact ⟨by obtain ⟨x, y⟩ := h; simp [Point.mk.injEq], ih⟩

/-- Claim C2, counterexample: two distinct vertical lines `x = 0` and
`x = -5` are reported the same by `Line::IsSame`, because the test
`c1*b2 == b1*c2` degenerates to `0 == 0` when both `b` coefficients are
zero; the triples are not proportional and the point sets differ. -/
theorem isSame_not_proportional_cex :
    Line.isSame ⟨1, 0, 0⟩ ⟨1, 0, 5⟩ = true ∧
    Line.wellFormed ⟨1, 0, 0⟩ ∧ Line.wellFormed ⟨1, 0, 5⟩ ∧
    ¬ Proportional ⟨1, 0, 0⟩ ⟨1, 0, 5⟩ ∧
    Line.containsPoint ⟨1, 0, 0⟩ ⟨0, 0⟩ = true ∧
    Line.containsPoint ⟨1, 0, 5⟩ ⟨0, 0⟩ = false := by
  refine ⟨by decide, Or.inl (by decide), Or.inl (by decide), ?_, by decide, by decide⟩
  rintro ⟨p, q, hp, hq, h1, h2, h3⟩
  simp only [Proportional] at h1 h3
  simp at h1 h3
  omega

/-- Claim C2, amended: for well-formed lines, proportional coefficient
triples always satisfy `IsSame`, and `IsSame` implies proportionality
except when both `b` coefficients are zero, where `IsSame` can also
accept two distinct vertical lines. -/
theorem isSame_proportional_amended (l m : Line) (hl : l.wellFormed) (hm : m.wellFormed) :
    (Proportional l m → l.isSame m = true) ∧
    (l.isSame m = true → Proportional l m ∨ (l.b = 0 ∧ m.b = 0)) := by
  constructor
  · rintro ⟨p, q, hp, hq, h1, h2, h3⟩
    simp only [Line.isSame, Line.isParalel, Bool.and_eq_true, beq_iff_eq]
    constructor
    · exact mul_left_cancel₀ hq (by linear_combination l.a * h2 - l.b * h1)
    · exact mul_left_cancel₀ hq (by linear_combination l.c * h2 - l.b * h3)
  · intro hsame
    simp only [Line.isSame, Line.isParalel, Bool.and_eq_true, beq_iff_eq] at hsame
    obtain ⟨hpar, hc⟩ := hsame
    by_cases hb : l.b = 0 ∧ m.b = 0
    · exact Or.inr hb
    · left
      have hmb : m.b ≠ 0 := by
        intro hmb0
        rcases mul_eq_zero.mp (show l.b * m.a = 0 by rw [← hpar, hmb0, mul_zero]) with h | h
        · exact hb ⟨h, hmb0⟩
        · rcases hm with hma | hmbne
          · exact hma h
          · exact hmbne hmb0
      have hlb : l.b ≠ 0 := by
        intro hlb0
        have h0 : l.a * m.b = 0 := by rw [hpar, hlb0, zero_mul]
        rcases mul_eq_zero.mp h0 with h | h
        · rcases hl with hla | hlbne
          · exact hla h
          · exact hlbne hlb0
        · exact hmb h
      exact ⟨m.b, l.b, hmb, hlb, by linear_combination -hpar, by ring,
        by linear_combination -hc⟩

/-- Claim C2, witness: the amended theorem applied to the proportional
pair `(1, 2, 3)` and `(2, 4, 6)`. -/
theorem isSame_proportional_witness : Line.isSame ⟨1, 2, 3⟩ ⟨2, 4, 6⟩ = true :=
  (isSame_proportional_amended ⟨1, 2, 3⟩ ⟨2, 4, 6⟩ (Or.inl (by decide))
    (Or.inl (by decide))).1 ⟨2, 1, by decide, by decide, by decide, by decide, by decide⟩

/-- Strict outsideness of an endpoint rules out the exact-perimeter
case, since the closed-disk test already fails. -/
theorem perimetr_false_of_containsPoint_false (c : Circle) (p : Point)
    (h : c.containsPoint p = false) : c.containsPointInPerimetr p = false := by
  simp only [Circle.containsPoint, decide_eq_false_iff_not, not_le] at h
  simp only [Circle.containsPointInPerimetr, beq_eq_false_iff_ne, ne_eq]
  exact ne_of_gt h

/-- Claim C3, counterexample: for the circle of radius `2` at the origin
and the segment `(5,1)-(6,1)`, both endpoints are strictly outside, the
two lines of the outside branch are not the same, and the perpendicular
distance from the center to the segment's line is `1`, not the radius
`2` (squared comparison `1 ≠ 4`), yet `Circle::CrossesSegment` reports a
crossing: the source compares with `<=`, not with equality. -/
theorem circle_crossesSegment_distance_cex :
    Circle.crossesSegment ⟨⟨0, 0⟩, 2⟩ ⟨⟨5, 1⟩, ⟨6, 1⟩⟩ = true ∧
    Circle.containsPoint ⟨⟨0, 0⟩, 2⟩ ⟨5, 1⟩ = false ∧
    Circle.containsPoint ⟨⟨0, 0⟩, 2⟩ ⟨6, 1⟩ = false ∧
    (lineOfPoints ⟨0, 0⟩ (padd ⟨0, 0⟩ (psub ⟨6, 1⟩ ⟨5, 1⟩))).isSame
      (lineOfPoints ⟨5, 1⟩ ⟨6, 1⟩) = false ∧
    ((lineOfPoints ⟨0, 0⟩ (padd ⟨0, 0⟩ (psub ⟨6, 1⟩ ⟨5, 1⟩))).c -
          (lineOfPoints ⟨5, 1⟩ ⟨6, 1⟩).c) *
        ((lineOfPoints ⟨0, 0⟩ (padd ⟨0, 0⟩ (psub ⟨6, 1⟩ ⟨5, 1⟩))).c -
          (lineOfPoints ⟨5, 1⟩ ⟨6, 1⟩).c) ≠
      2 * 2 *
        ((lineOfPoints ⟨0, 0⟩ (padd ⟨0, 0⟩ (psub ⟨6, 1⟩ ⟨5, 1⟩))).a *
            (lineOfPoints ⟨0, 0⟩ (padd ⟨0, 0⟩ (psub ⟨6, 1⟩ ⟨5, 1⟩))).a +
          (lineOfPoints ⟨0, 0⟩ (padd ⟨0, 0⟩ (psub ⟨6, 1⟩ ⟨5, 1⟩))).b *
            (lineOfPoints ⟨0, 0⟩ (padd ⟨0, 0⟩ (psub ⟨6, 1⟩ ⟨5, 1⟩))).b) := by
  decide

/-- Claim C3, amended: when both endpoints are strictly outside and the
outside branch's two lines are not the same, `Circle::CrossesSegment`
returns true if and only if the radius is nonzero and the squared
perpendicular distance from the center to the segment's line is at most
the squared radius, `(c1-c2)^2 <= r^2*(a^2+b^2)`; in every remaining
case of this branch it returns false. -/
theorem circle_crossesSegment_outside_amended (c : Circle) (s : Segment)
    (hb : c.containsPoint s.begin_ = false)
    (he : c.containsPoint s.end_ = false)
    (hsame : (lineOfPoints c.center (padd c.center (psub s.end_ s.begin_))).isSame
        (lineOfPoints s.begin_ s.end_) = false) :
    (c.crossesSegment s = true ↔
      (c.radius ≠ 0 ∧
        ((lineOfPoints c.center (padd c.center (psub s.end_ s.begin_))).c -
              (lineOfPoints s.begin_ s.end_).c) *
            ((lineOfPoints c.center (padd c.center (psub s.end_ s.begin_))).c -
              (lineOfPoints s.begin_ s.end_).c) ≤
          c.radius * c.radius *
            ((lineOfPoints c.center (padd c.center (psub s.end_ s.begin_))).a *
                (lineOfPoints c.center (padd c.center (psub s.end_ s.begin_))).a +
              (lineOfPoints c.center (padd c.center (psub s.end_ s.begin_))).b *
                (lineOfPoints c.center (padd c.center (psub s.end_ s.begin_))).b))) := by
  have hpb := perimetr_false_of_containsPoint_false c s.begin_ hb
  have hpe := perimetr_false_of_containsPoint_false c s.end_ he
  unfold Circle.crossesSegment circleOutsideCase
  rw [hpb, hpe, hb, he]
  simp only [Bool.or_self, Bool.and_false, Bool.false_and, Bool.or_self, Bool.not_false,
    Bool.and_self, Bool.false_eq_true, if_false, hsame, ite_self]
  rcases eq_or_ne c.radius 0 with h0 | h0
  · simp [Line.isDistanceEqualRadius, h0]
  · simp [Line.isDistanceEqualRadius, h0]

/-- Claim C3, witness: the amended theorem applied to the radius-2
circle at the origin and the segment `(5,1)-(6,1)`, whose line is at
distance `1 ≤ 2` from the center. -/
theorem circle_crossesSegment_outside_witness :
    Circle.crossesSegment ⟨⟨0, 0⟩, 2⟩ ⟨⟨5, 1⟩, ⟨6, 1⟩⟩ = true :=
  (circle_crossesSegment_outside_amended ⟨⟨0, 0⟩, 2⟩ ⟨⟨5, 1⟩, ⟨6, 1⟩⟩
    (by decide) (by decide) (by decide)).mpr ⟨by decide, by decide⟩

/-- Claim C5: whenever the Cramer branch of `Ray::CrossesSegment` is
reached — the ray's line crosses the segment and the two lines are not
`IsSame` — the determinant denominator over the coefficient pairs is
nonzero, so the guarded division fallback is unreachable. -/
theorem ray_crossesSegment_denominator_ne_zero (r : Ray) (s : Segment)
    (hcross : (lineOfRay r).crossesSegment s = true)
    (hsame : (lineOfRay r).isSame (lineOfPoints s.begin_ s.end_) = false) :
    rayDenominator r s ≠ 0 := by
  obtain ⟨⟨bx, bv⟩, ⟨dx, dy⟩⟩ := r
  obtain ⟨⟨x1, y1⟩, ⟨x2, y2⟩⟩ := s
  simp only [Line.crossesSegment, Line.putPointIntoEquation, lineOfRay, lineOfPoints,
    decide_eq_true_eq] at hcross
  simp only [Line.isSame, Line.isParalel, lineOfRay, lineOfPoints] at hsame
  simp only [rayDenominator, calculateDeterminant, cross, vecOfPoint, lineOfRay, lineOfPoints,
    ne_eq]
  intro hden
  have heq : dy * x2 + -dx * y2 + (-dy * bx - -dx * bv) =
      dy * x1 + -dx * y1 + (-dy * bx - -dx * bv) := by linear_combination hden
  rw [heq] at hcross
  have hE1 : dy * x1 + -dx * y1 + (-dy * bx - -dx * bv) = 0 :=
    mul_self_eq_zero.mp (le_antisymm hcross (mul_self_nonneg _))
  have hpareq : dy * (x1 - x2) = -dx * (y2 - y1) := by linear_combination -hden
  have hceq : (-dy * bx - -dx * bv) * (x1 - x2) = -dx * (x2 * y1 - x1 * y2) := by
    linear_combination (x1 - x2) * hE1 + x1 * hden
  simp [hpareq, hceq] at hsame
  exact hsame (by linear_combination hceq)

/-- Claim C5, witness: the vertical ray from the origin against the
horizontal segment `(-1,1)-(1,1)` reaches the Cramer branch and has
denominator `2`. -/
theorem ray_crossesSegment_denominator_witness :
    (lineOfRay ⟨⟨0, 0⟩, ⟨0, 1⟩⟩).crossesSegment ⟨⟨-1, 1⟩, ⟨1, 1⟩⟩ = true ∧
    (lineOfRay ⟨⟨0, 0⟩, ⟨0, 1⟩⟩).isSame (lineOfPoints ⟨-1, 1⟩ ⟨1, 1⟩) = false ∧
    rayDenominator ⟨⟨0, 0⟩, ⟨0, 1⟩⟩ ⟨⟨-1, 1⟩, ⟨1, 1⟩⟩ ≠ 0 :=
  ⟨by decide, by decide,
    ray_crossesSegment_denominator_ne_zero ⟨⟨0, 0⟩, ⟨0, 1⟩⟩ ⟨⟨-1, 1⟩, ⟨1, 1⟩⟩
      (by decide) (by decide)⟩

/-- Claim C7: `Segment::ContainsPoint` accepts both endpoints and every
point strictly between them on their common line, rejects every point
off that line, and equals the test `v1 × v2 == 0 ∧ v1 · v2 ≤ 0` with
`v1 = r - begin` and `v2 = r - end`. -/
theorem segment_containsPoint_spec :
    ∀ p q r : Point,
      Segment.containsPoint ⟨p, q⟩ p = true ∧
      Segment.containsPoint ⟨p, q⟩ q = true ∧
      (StrictlyBetween p q r → Segment.containsPoint ⟨p, q⟩ r = true) ∧
      (cross (vecOfPoints p q) (vecOfPoints p r) ≠ 0 →
        Segment.containsPoint ⟨p, q⟩ r = false) ∧
      (Segment.containsPoint ⟨p, q⟩ r = true ↔
        cross (vecOfPoint (psub r p)) (vecOfPoint (psub r q)) = 0 ∧
        dot (vecOfPoint (psub r p)) (vecOfPoint (psub r q)) ≤ 0) := by
  intro p q r
  have hiff : ∀ w : Point, Segment.containsPoint ⟨p, q⟩ w = true ↔
      cross (vecOfPoint (psub w p)) (vecOfPoint (psub w q)) = 0 ∧
      dot (vecOfPoint (psub w p)) (vecOfPoint (psub w q)) ≤ 0 := by
    intro w
    simp [Segment.containsPoint]
  refine ⟨?_, ?_, ?_, ?_, hiff r⟩
  · rw [hiff]
    constructor <;> simp [cross, dot, vecOfPoint, psub]
  · rw [hiff]
    constructor <;> simp [cross, dot, vecOfPoint, psub]
  · rintro ⟨s, t, hs, ht, hx, hy⟩
    rw [hiff]
    simp only [cross, dot, vecOfPoint, psub]
    have hst : (0 : ℤ) < s + t := by linarith
    have e1 : (s + t) * (r.x - p.x) = s * (q.x - p.x) := by linear_combination hx
    have e2 : (s + t) * (r.y - p.y) = s * (q.y - p.y) := by linear_combination hy
    have e3 : (s + t) * (r.x - q.x) = -(t * (q.x - p.x)) := by linear_combination hx
    have e4 : (s + t) * (r.y - q.y) = -(t * (q.y - p.y)) := by linear_combination hy
    constructor
    · have hC : ((s + t) * (s + t)) *
          ((r.x - p.x) * (r.y - q.y) - (r.y - p.y) * (r.x - q.x)) = 0 := by
        linear_combination ((s + t) * (r.y - q.y)) * e1 + (s * (q.x - p.x)) * e4 -
          ((s + t) * (r.x - q.x)) * e2 - (s * (q.y - p.y)) * e3
      rcases mul_eq_zero.mp hC with h | h
      · exact absurd h (mul_pos hst hst).ne'
      · exact h
    · have hD : ((s + t) * (s + t)) *
          ((r.x - p.x) * (r.x - q.x) + (r.y - p.y) * (r.y - q.y)) =
          -(s * t) * ((q.x - p.x) * (q.x - p.x) + (q.y - p.y) * (q.y - p.y)) := by
        linear_combination ((s + t) * (r.x - q.x)) * e1 + (s * (q.x - p.x)) * e3 +
          ((s + t) * (r.y - q.y)) * e2 + (s * (q.y - p.y)) * e4
      nlinarith [mul_pos hst hst, mul_pos hs ht, mul_self_nonneg (q.x - p.x),
        mul_self_nonneg (q.y - p.y)]
  · intro hoff
    cases hcp : Segment.containsPoint ⟨p, q⟩ r with
    | false => rfl
    | true =>
      exfalso
      obtain ⟨hc, -⟩ := (hiff r).mp hcp
      apply hoff
      simp only [cross, vecOfPoints, vecOfPoint, psub] at hc ⊢
      linear_combination hc

/-- Claim C7, witness: the segment from the origin to `(4,0)` contains
the midpoint `(2,0)` and rejects the off-line point `(5,1)`. -/
theorem segment_containsPoint_spec_witness :
    Segment.containsPoint ⟨⟨0, 0⟩, ⟨4, 0⟩⟩ ⟨2, 0⟩ = true ∧
    Segment.containsPoint ⟨⟨0, 0⟩, ⟨4, 0⟩⟩ ⟨5, 1⟩ = false :=
  ⟨(segment_containsPoint_spec ⟨0, 0⟩ ⟨4, 0⟩ ⟨2, 0⟩).2.2.1
      ⟨1, 1, by decide, by decide, by decide, by decide⟩,
   (segment_containsPoint_spec ⟨0, 0⟩ ⟨4, 0⟩ ⟨5, 1⟩).2.2.2.1 (by decide)⟩

/-- Coefficientwise negation of a line; the two orientations of one
segment produce lines related by this negation. -/
def negLine (l : Line) : Line := ⟨-l.a, -l.b, -l.c⟩

/-- Reversing the two construction points negates all three coefficients
of the line. -/
theorem lineOfPoints_swap (p q : Point) : lineOfPoints q p = negLine (lineOfPoints p q) := by
  simp only [lineOfPoints, negLine, Line.mk.injEq]
  refine ⟨by ring, by ring, by ring⟩

/-- Reversing the segment direction negates all three coefficients of
the parallel line through the center. -/
theorem circleLine_swap (ctr A B : Point) :
    lineOfPoints ctr (padd ctr (psub A B)) =
      negLine (lineOfPoints ctr (padd ctr (psub B A))) := by
  simp only [lineOfPoints, padd, psub, negLine, Line.mk.injEq]
  refine ⟨by ring, by ring, by ring⟩

/-- The same-line test is invariant under negating both lines. -/
theorem isSame_negLine (l m : Line) : (negLine l).isSame (negLine m) = l.isSame m := by
  simp [Line.isSame, Line.isParalel, negLine, neg_mul_neg]

/-- The squared-distance comparison is invariant under negating both
lines. -/
theorem isDistanceEqualRadius_negLine (l m : Line) (rad : Int) :
    (negLine l).isDistanceEqualRadius (negLine m) rad = l.isDistanceEqualRadius m rad := by
  have e : ((-l.c - -m.c) * (-l.c - -m.c) ≤ rad * rad * (-l.a * -l.a + -l.b * -l.b)) ↔
      ((l.c - m.c) * (l.c - m.c) ≤ rad * rad * (l.a * l.a + l.b * l.b)) := by
    rw [show (-l.c - -m.c) * (-l.c - -m.c) = (l.c - m.c) * (l.c - m.c) from by ring,
      show rad * rad * (-l.a * -l.a + -l.b * -l.b) = rad * rad * (l.a * l.a + l.b * l.b)
        from by ring]
  simp only [Line.isDistanceEqualRadius, negLine, e]

/-- Commutativity of the dot product. -/
theorem dot_comm (v w : Vector) : dot v w = dot w v := by
  simp only [dot]
  ring

/-- The both-endpoints-outside branch is symmetric in the endpoints. -/
theorem circleOutsideCase_swap (c : Circle) (A B : Point) :
    circleOutsideCase c ⟨B, A⟩ = circleOutsideCase c ⟨A, B⟩ := by
  simp only [circleOutsideCase]
  rw [circleLine_swap c.center A B, lineOfPoints_swap A B, isSame_negLine,
    isDistanceEqualRadius_negLine,
    dot_comm (vecOfPoint (psub B c.center)) (vecOfPoint (psub A c.center))]

/-- Claim C6: `Circle::CrossesSegment` is symmetric under swapping the
segment's endpoints. -/
theorem circle_crossesSegment_symm :
    ∀ (c : Circle) (A B : Point),
      Circle.crossesSegment c ⟨A, B⟩ = Circle.crossesSegment c ⟨B, A⟩ := by
  intro c A B
  cases hpa : c.containsPointInPerimetr A <;> cases hpb : c.containsPointInPerimetr B <;>
    cases hia : c.containsPoint A <;> cases hib : c.containsPoint B <;>
      simp [Circle.crossesSegment, hpa, hpb, hia, hib, circleOutsideCase_swap c A B]

end Geometry
